import Mathlib

/-
Verification of the schema-validator core (src/lib/schema.js) against its
specification. The JavaScript source is shallowly embedded: JS values become
the inductive JsValue, the Schema class becomes the inductive Schema, thrown
errors become the Except error channel with the inductive JsErr, and every
function of the source file becomes a Lean definition of the same name.

Modelling notes on JavaScript semantics:
- JS functions occur in this code base only as zero-argument producers (an own
  toString method, a default-value factory passed in settings). They are
  modelled as constant functions carrying the value they return.
- JS numbers are modelled as integers plus a separate NaN marker; no claim
  exercises fractional values.
- String-to-number and string-to-date coercion heuristics of the JS runtime
  are out of scope per the spec (section 1); the model parses integer strings
  and treats other strings as NaN / invalid dates.
-/

inductive JsValue where
| undef
| null
| bool (b : Bool)
| num (n : Int)
| nan
| str (s : String)
| func (ret : JsValue)
| date (t : Option Int)
| arr (elems : List JsValue)
| obj (fields : List (String × JsValue))

/- The typeof operator. Note typeof null is the string object in JS. -/
def typeofJs : JsValue → String
| .undef => "undefined"
| .null => "object"
| .bool _ => "boolean"
| .num _ => "number"
| .nan => "number"
| .str _ => "string"
| .func _ => "function"
| .date _ => "object"
| .arr _ => "object"
| .obj _ => "object"

/- JS falsiness: undefined, null, false, 0, NaN and the empty string. -/
def isFalsy : JsValue → Bool
| .undef => true
| .null => true
| .bool b => !b
| .num n => n == 0
| .nan => true
| .str s => s == ""
| _ => false

def isTruthy (v : JsValue) : Bool := !(isFalsy v)

def isUndef : JsValue → Bool
| .undef => true
| _ => false

/- Lookup of an own property in an object literal (first occurrence wins;
object keys are unique in JS). -/
def ownField : List (String × JsValue) → String → Option JsValue
| [], _ => none
| (k, w) :: rest, key => if k = key then some w else ownField rest key

/- The own toString method, when one exists (v.hasOwnProperty with key
toString). Only object literals can carry one in this model; Date and Array
instances inherit toString from their prototypes, which is not an own
property. -/
def ownToString : JsValue → Option JsValue
| .obj fields => ownField fields "toString"
| _ => none

/- ToNumber on primitive values. Number() of a numeric string parses it; an
all-whitespace or empty string converts to 0; objects and arrays convert to
NaN at this primitive level. -/
def strToNumber (s : String) : Option Int :=
  let t := s.trim
  if t = "" then some 0 else t.toInt?

def toNumberPrim : JsValue → Option Int
| .undef => none
| .null => some 0
| .bool b => some (if b then 1 else 0)
| .num n => some n
| .nan => none
| .str s => strToNumber s
| .func _ => none
| .date t => t
| .arr _ => none
| .obj _ => none

/- Number(v): ToPrimitive followed by primitive conversion. A plain object
converts through its own toString method when it has one (a function result
that is again an object would be a TypeError in JS; the model folds that rare
case into NaN). A one-element array converts through its element, an empty
array to 0. -/
def toNumber : JsValue → Option Int
| .arr [] => some 0
| .arr [x] => toNumberPrim x
| .arr (_ :: _ :: _) => none
| .obj fields =>
  (match ownField fields "toString" with
   | some (.func r) => toNumberPrim r
   | _ => none)
| v => toNumberPrim v

/- Object.keys. Arrays and strings expose their index keys. -/
def jsKeys : JsValue → List String
| .obj fields => fields.map (fun kv => kv.1)
| .arr elems => (List.range elems.length).map (fun i => toString i)
| .str s => (List.range s.length).map (fun i => toString i)
| _ => []

/- Reading the length property, as the String transformer does. -/
def lengthProp : JsValue → Option Int
| .str s => some (s.length)
| .arr elems => some (elems.length)
| .func _ => some 0
| _ => none

/- String(v), used when a non-string ends up as an error message and to feed
a regular expression test. Composite renderings are simplified; only string
messages occur in practice. -/
def jsStringOf : JsValue → String
| .undef => "undefined"
| .null => "null"
| .bool b => if b then "true" else "false"
| .num n => toString n
| .nan => "NaN"
| .str s => s
| .func _ => "function"
| .date _ => "Date"
| .arr _ => "Array"
| .obj _ => "[object Object]"

/-- Modelled from the spec: lib/validation-error.js is imported by schema.js
but is not under src. Spec section 3 (Error model): a validation failure is a
leaf error (message, offending value, originating field reference) or a
composite error (message, ordered child errors, optional field, optional
value). The field back-reference is modelled by the fullPath of the owning
schema node. A plain JS Error (new Error(msg), which is not a ValidationError
and carries no field) is modelled by the plain constructor; an engine-raised
TypeError by typeError. -/
inductive JsErr where
| validation (message : String) (value : Option JsValue) (fieldPath : Option String) (errors : List JsErr)
| plain (message : String)
| typeError (message : String)

/- A regular expression setting: the test predicate, plus the custom message
when the setting was given as a two-element array pair. The castThrowable
treatment of this setting is folded into the msg field because the regex
object itself is opaque. -/
structure RegexSpec where
  test : String → Bool
  msg : Option String := none

/- Leaf settings consumed by the built-in transformers and by the parse
pipeline. Each field holds the raw JS value of the setting (so a pair such as
a two-element array with a custom message is representable), absent when the
key is missing. The type key never reaches settings (deleted on
construction). -/
structure Settings where
  required : Option JsValue := none
  default : Option JsValue := none
  minlength : Option JsValue := none
  maxlength : Option JsValue := none
  regex : Option RegexSpec := none

/- Truthiness of a raw setting, as tested by the source with a bare if. -/
def settingTruthy : Option JsValue → Bool
| none => false
| some v => isTruthy v

/- Schema.castThrowable: a two-element array splits into value and custom
error; anything else pairs with the fallback error. -/
def castThrowable (value : JsValue) (error : JsValue) : JsValue × JsValue :=
  match value with
  | .arr [a, b] => (a, b)
  | v => (v, error)

/-- Modelled from the spec: utils/properties-restricted is imported by
schema.js but is not under src. Spec section 6 describes it as the pure
function that checks that an object has no keys outside an allowed set; the
keys of a non-object are the empty set here. -/
def propertiesRestricted (v : JsValue) (allowed : List String) : Bool :=
  (jsKeys v).all (fun k => allowed.contains k)

mutual

/-- Modelled from the spec: recursion step of obj2dot, giving the nested key
list of a plain object value and nothing for any other value. -/
def obj2dotVal : JsValue → Option (List String)
| .obj f2 => some (obj2dotFields f2)
| _ => none

/-- Modelled from the spec: the field walker of obj2dot (see obj2dot below).
An entry whose value is a plain object contributes its nested keys prefixed
with the entry key and a dot; any other entry contributes its key. -/
def obj2dotFields : List (String × JsValue) → List String
| [] => []
| e :: rest =>
  (match obj2dotVal e.2 with
   | some ps => ps.map (fun p => e.1 ++ "." ++ p)
   | none => [e.1]) ++ obj2dotFields rest

end

/-- Modelled from the spec: utils/obj-2-dot is imported by schema.js but is
not under src. Spec section 6: flatten a nested mapping into dotted-path
keys, depth first; behaviour pinned by test/utils.test.js (plain nested
objects recurse, every other value is a leaf key). -/
def obj2dot : JsValue → List String := fun v =>
  obj2dotFields (match v with | .obj fields => fields | _ => [])

/-
The Schema class. In the source a node is a branch iff its children property
is defined (absence, not emptiness, is the discriminator — spec section 3),
so the embedding uses two constructors. A leaf carries its resolved type name
(the constructor resolves it with guessType before storing it) and its
settings (every key of the leaf spec except type). A branch carries its
children in declaration order; branch nodes have type Schema and empty
settings in the source, which no code path reads. fullPath is the getter
computed from the parent chain; since the chain is fixed at construction the
embedding stores the computed value on the node.
-/

inductive Schema where
| leaf (name : String) (fullPath : String) (type : String) (settings : Settings)
| branch (name : String) (fullPath : String) (children : List Schema)

def Schema.name : Schema → String
| .leaf n _ _ _ => n
| .branch n _ _ => n

def Schema.fullPath : Schema → String
| .leaf _ fp _ _ => fp
| .branch _ fp _ => fp

def Schema.type : Schema → String
| .leaf _ _ ty _ => ty
| .branch _ _ _ => "Schema"

def Schema.settingsOf : Schema → Settings
| .leaf _ _ _ st => st
| .branch _ _ _ => {}

def Schema.childrenOf : Schema → List Schema
| .leaf _ _ _ _ => []
| .branch _ _ cs => cs

def Schema.isBranch : Schema → Bool
| .leaf _ _ _ _ => false
| .branch _ _ _ => true

/- ownPaths: the immediate child names (source: this.children.map name). -/
def Schema.ownPaths (s : Schema) : List String :=
  (Schema.childrenOf s).map Schema.name

mutual

/- paths: the leaf-reachable dotted paths under a node. A branch prefixes
each path of each child with its own (non-empty) name; a leaf contributes its
own name. -/
def Schema.paths : Schema → List String
| .leaf n _ _ _ => [n]
| .branch n _ cs =>
  (Schema.pathsList cs).map (fun p => if n = "" then p else n ++ "." ++ p)

def Schema.pathsList : List Schema → List String
| [] => []
| c :: rest => Schema.paths c ++ Schema.pathsList rest

end

/- hasField: membership of a dotted name in the full paths set. -/
def Schema.hasField (s : Schema) (fieldName : String) : Bool :=
  (Schema.paths s).contains fieldName

/- schemaAtPath: resolves only the first dot-segment against the immediate
children by exact name match (single-level responsibility). -/
def Schema.schemaAtPath (s : Schema) (pathName : String) : Option Schema :=
  (Schema.childrenOf s).find? (fun c => Schema.name c = (pathName.splitOn ".").headD "")

/- throwError: the single construction path for field-attributed errors; it
always tags the produced ValidationError with this node as the field. -/
def Schema.throwError (s : Schema) (message : JsValue) (value : Option JsValue) (errors : List JsErr) : JsErr :=
  JsErr.validation (jsStringOf message) value (some (Schema.fullPath s)) errors

/- structureValidation: a falsy input is trivially valid; otherwise the input
must have no keys outside ownPaths, else one plain Error per flattened dotted
key that fails hasField is collected (in flattening order) and a composite
ValidationError titled Invalid object schema (without a field tag) is
raised. -/
def Schema.structureValidation (s : Schema) (v : JsValue) : Except JsErr Unit :=
  if isFalsy v then Except.ok ()
  else if propertiesRestricted v (Schema.ownPaths s) then Except.ok ()
  else Except.error (JsErr.validation "Invalid object schema" (some v) none
    (((obj2dot v).filter (fun f => !(Schema.hasField s f))).map
      (fun f => JsErr.plain ("Unknown property " ++ f))))

/-
The built-in transformers (the Transformers registry of schema.js). None of
the four built-in entries declares loaders or a default settings block, so
the loader branch of the run pipeline is vacuous and is not modelled.
-/

/- Coercion step of Transformers.String.parse: a string passes through; an
object with an own toString method is converted by calling it (reading
hasOwnProperty on null is an engine TypeError, as is calling a non-function
own toString); everything else raises Invalid string via throwError. -/
def stringCoerce (sc : Schema) (v : JsValue) : Except JsErr JsValue :=
  if typeofJs v = "string" then Except.ok v
  else if typeofJs v = "object" then
    match v with
    | .null => Except.error (JsErr.typeError "Cannot read properties of null")
    | _ =>
      match ownToString v with
      | some (.func r) => Except.ok r
      | some _ => Except.error (JsErr.typeError "toString is not a function")
      | none => Except.error (Schema.throwError sc (.str "Invalid string") (some v) [])
  else Except.error (Schema.throwError sc (.str "Invalid string") (some v) [])

/- Comparison helpers for the length checks: a JS less-than between a length
read and a raw setting value is false whenever either side fails to be a
number. -/
def numLt (a : Option Int) (b : JsValue) : Bool :=
  match a, toNumber b with
  | some x, some y => decide (x < y)
  | _, _ => false

def numGt (a : Option Int) (b : JsValue) : Bool :=
  match a, toNumber b with
  | some x, some y => decide (y < x)
  | _, _ => false

def checkMinlength (sc : Schema) (v : JsValue) : Except JsErr Unit :=
  if settingTruthy (Schema.settingsOf sc).minlength then
    let p := castThrowable (((Schema.settingsOf sc).minlength).getD JsValue.undef) (.str "Invalid minlength")
    if numLt (lengthProp v) p.1 then
      Except.error (Schema.throwError sc p.2 (some v) [])
    else Except.ok ()
  else Except.ok ()

def checkMaxlength (sc : Schema) (v : JsValue) : Except JsErr Unit :=
  if settingTruthy (Schema.settingsOf sc).maxlength then
    let p := castThrowable (((Schema.settingsOf sc).maxlength).getD JsValue.undef) (.str "Invalid maxlength")
    if numGt (lengthProp v) p.1 then
      Except.error (Schema.throwError sc p.2 (some v) [])
    else Except.ok ()
  else Except.ok ()

def checkRegex (sc : Schema) (v : JsValue) : Except JsErr Unit :=
  match (Schema.settingsOf sc).regex with
  | none => Except.ok ()
  | some r =>
    if r.test (jsStringOf v) then Except.ok ()
    else Except.error (Schema.throwError sc (.str (r.msg.getD "Invalid regex")) (some v) [])

/- Transformers.String.parse: coerce, then the three settings checks in
source order, each aborting the field on failure; the coerced value is the
result. -/
def stringParse (sc : Schema) (v : JsValue) : Except JsErr JsValue :=
  match stringCoerce sc v with
  | Except.error e => Except.error e
  | Except.ok v1 =>
    match checkMinlength sc v1 with
    | Except.error e => Except.error e
    | Except.ok _ =>
      match checkMaxlength sc v1 with
      | Except.error e => Except.error e
      | Except.ok _ =>
        match checkRegex sc v1 with
        | Except.error e => Except.error e
        | Except.ok _ => Except.ok v1

/- Transformers.Number.parse: coerce with Number(), reject NaN with a plain
Error (note: not a ValidationError, so it carries no field). -/
def numberParse (_sc : Schema) (v : JsValue) : Except JsErr JsValue :=
  match toNumber v with
  | none => Except.error (JsErr.plain "Invalid number")
  | some n => Except.ok (JsValue.num n)

/- Date.parse coercion for strings is out of scope (spec section 1); the
model parses integer strings only. -/
def jsDateParse : JsValue → Option Int
| .date t => t
| .str s => s.toInt?
| _ => none

/- Transformers.Date.parse: new Date(...) always yields a Date instance
(possibly an invalid one), so the instanceof guard of the source never fires
and this transformer never throws. -/
def dateParse (_sc : Schema) (v : JsValue) : Except JsErr JsValue :=
  match v with
  | .num n => Except.ok (JsValue.date (some n))
  | w => Except.ok (JsValue.date (jsDateParse w))

/- Transformers.Function.parse: plain Error on non-functions. -/
def functionParse (_sc : Schema) (v : JsValue) : Except JsErr JsValue :=
  if typeofJs v = "function" then Except.ok v
  else Except.error (JsErr.plain "Invalid function")

/- A transformer entry: its parse hook, called with the schema node bound as
this. -/
structure Transformer where
  parse : Schema → JsValue → Except JsErr JsValue

/- The process-wide registry, holding exactly the built-in entries of the
source file. -/
def Transformers : String → Option Transformer
| "String" => some { parse := stringParse }
| "Number" => some { parse := numberParse }
| "Date" => some { parse := dateParse }
| "Function" => some { parse := functionParse }
| _ => none

/- A function default is invoked to produce the value (constant in this
model); a non-function default is used as a literal. -/
def invokeDefault : JsValue → JsValue
| .func r => r
| d => d

/- The custom-manipulator step of Schema.parse for leaves: when the default
setting is truthy and the value is falsy, the default replaces the value. -/
def defaultedValue (st : Settings) (v : JsValue) : JsValue :=
  match st.default with
  | some d => if isTruthy d && isFalsy v then invokeDefault d else v
  | none => v

/- The required step of Schema.run: on a falsy value with a truthy required
setting, split the setting with castThrowable and raise the (possibly
custom) message through throwError when the split flag is truthy. -/
def requiredCheck (sc : Schema) (v : JsValue) : Except JsErr Unit :=
  if isFalsy v && settingTruthy (Schema.settingsOf sc).required then
    let p := castThrowable (((Schema.settingsOf sc).required).getD JsValue.undef)
      (.str ("Field " ++ Schema.fullPath sc ++ " is required"))
    if isTruthy p.1 then Except.error (Schema.throwError sc p.2 (some v) [])
    else Except.ok ()
  else Except.ok ()

/- Schema.run (source name with a leading underscore): resolve the
transformer (a plain Error without a field on unknown type names), return
undefined untouched when the field is not required, run the required check,
then hand the value to the transformer parse hook. The loaders branch of the
source is vacuous for the built-in registry (no entry declares loaders). -/
def Schema.run (sc : Schema) (type : String) (v : JsValue) : Except JsErr JsValue :=
  match Transformers type with
  | none => Except.error (JsErr.plain ("Don\x27t know how to resolve " ++ type))
  | some transformer =>
    if isUndef v && !(settingTruthy (Schema.settingsOf sc).required) then
      Except.ok JsValue.undef
    else
      match requiredCheck sc v with
      | Except.error e => Except.error e
      | Except.ok _ => transformer.parse sc v

/- Reading the sub-value a branch hands to a child: obj[name] when the input
has typeof object (property access on null is an engine TypeError, caught by
the branch walk like any other thrown error), undefined otherwise. -/
def subValue (v : JsValue) (name : String) : Except JsErr JsValue :=
  if typeofJs v = "object" then
    match v with
    | .null => Except.error (JsErr.typeError "Cannot read properties of null")
    | .obj fields => Except.ok ((ownField fields name).getD JsValue.undef)
    | .arr elems => Except.ok ((name.toNat?.bind (fun i => elems.get? i)).getD JsValue.undef)
    | _ => Except.ok JsValue.undef
  else Except.ok JsValue.undef

/- Error flattening of the branch walk: a caught ValidationError with a
non-empty child list is spliced; any other error is appended whole. -/
def flattenErr : JsErr → List JsErr
| .validation m v f errs =>
  if errs.isEmpty then [.validation m v f errs] else errs
| e => [e]

/- One Object.assign step on the accumulated result object. -/
def objAssignField : List (String × JsValue) → String → JsValue → List (String × JsValue)
| [], k, v => [(k, v)]
| (k0, v0) :: rest, k, v =>
  if k0 = k then (k0, v) :: rest else (k0, v0) :: objAssignField rest k v

mutual

/- Schema.parse. A branch runs structureValidation and then the nested walk
(source _parseNested): either the Data is not valid composite is raised or
the sanitized object is assembled (undefined when no child produced a
value); a leaf applies the default substitution and runs the transformer
pipeline. -/
def Schema.parse : Schema → JsValue → Except JsErr JsValue
| Schema.branch n fp cs, v =>
  match Schema.structureValidation (Schema.branch n fp cs) v with
  | Except.error e => Except.error e
  | Except.ok _ =>
    match Schema.parseFields cs v [] [] with
    | (ro, errs) =>
      if errs.isEmpty then
        if ro.isEmpty then Except.ok JsValue.undef else Except.ok (JsValue.obj ro)
      else Except.error (JsErr.validation "Data is not valid" none none errs)
| Schema.leaf n fp ty st, v =>
  Schema.run (Schema.leaf n fp ty st) ty (defaultedValue st v)

/- The forEach of _parseNested over the own paths. Sibling names are unique
(JS object keys), so the schemaAtPath lookup of the source resolves each own
path to the child of that name and the walk visits the children in
declaration order. A child result that is not undefined is assigned onto the
result object; a thrown child error is flattened onto the error list. -/
def Schema.parseFields : List Schema → JsValue → List (String × JsValue) → List JsErr → (List (String × JsValue) × List JsErr)
| [], _, acc, errs => (acc, errs)
| c :: rest, v, acc, errs =>
  match (match subValue v (Schema.name c) with
         | Except.error e => Except.error e
         | Except.ok sub => Schema.parse c sub) with
  | Except.ok val =>
    Schema.parseFields rest v
      (if isUndef val then acc else objAssignField acc (Schema.name c) val) errs
  | Except.error err => Schema.parseFields rest v acc (errs ++ flattenErr err)

end

/- The per-child step of the branch walk, named for reuse in statements: read
the sub-value, then parse the child with it. -/
def Schema.childParse (v : JsValue) (c : Schema) : Except JsErr JsValue :=
  match subValue v (Schema.name c) with
  | Except.error e => Except.error e
  | Except.ok sub => Schema.parse c sub

/- The tail of _parseNested after structureValidation, named for reuse in
statements; definitionally the branch case of Schema.parse after a
successful structure check. -/
def Schema.branchAssemble (cs : List Schema) (v : JsValue) : Except JsErr JsValue :=
  match Schema.parseFields cs v [] [] with
  | (ro, errs) =>
    if errs.isEmpty then
      if ro.isEmpty then Except.ok JsValue.undef else Except.ok (JsValue.obj ro)
    else Except.error (JsErr.validation "Data is not valid" none none errs)

/-
Schema construction. A definition is a branch iff it is a plain mapping
without a type key at its own level (Schema.isNested); otherwise it is a
leaf whose type name guessType resolves (a constructor reference resolves to
its name) and whose remaining keys become the settings. The constructor
performs no validation of the settings whatsoever: build is total and can
never reject a definition.
-/

inductive Definition where
| leaf (type : String) (settings : Settings)
| nested (props : List (String × Definition))

/- fullPath of a child: the parent fullPath, a dot when that is non-empty,
then the name (matching the fullPath getter of the source). -/
def joinPath (parentPath name : String) : String :=
  if parentPath = "" then name else parentPath ++ "." ++ name

mutual

def buildAt (parentPath : String) (name : String) : Definition → Schema
| Definition.leaf ty st => Schema.leaf name (joinPath parentPath name) ty st
| Definition.nested props =>
  Schema.branch name (joinPath parentPath name)
    (buildChildren (joinPath parentPath name) props)

def buildChildren (path : String) : List (String × Definition) → List Schema
| [] => []
| (k, d) :: rest => buildAt path k d :: buildChildren path rest

end

/- new Schema(definition): the root has the empty name and no parent. -/
def Schema.build (d : Definition) : Schema := buildAt "" "" d

/- The own-path keys whose child result is defined, in declaration order: the
specification-side description (spec section 4.4 step 5) of the sanitized
branch result, to be compared with the walk of the source. -/
def successFields (cs : List Schema) (v : JsValue) : List (String × JsValue) :=
  cs.filterMap (fun c => match Schema.childParse v c with
    | Except.ok val => if isUndef val then none else some (Schema.name c, val)
    | Except.error _ => none)

/- Uniqueness of a name list, decidably (sibling names of a constructed
branch are unique because JS object keys are). -/
def nodupStr : List String → Bool
| [] => true
| s :: rest => !(rest.contains s) && nodupStr rest

/-
Machinery for the round-trip claim. A good tree is one of String and Number
leaves (the other two built-in types cannot participate in a successful
round trip: a Date output is not even accepted back by this Date transformer
model, and a type without a registered transformer never parses) with unique
sibling names and with defaults producing values of the leaf type; a good
value supplies each leaf position with a value of its own type or leaves it
absent.
-/

def leafValB (ty : String) (v : JsValue) : Bool :=
  match ty, v with
  | "String", .str _ => true
  | "Number", .num _ => true
  | _, _ => false

def defaultOkB (ty : String) (st : Settings) : Bool :=
  match st.default with
  | none => true
  | some d => !(isTruthy d) || leafValB ty (invokeDefault d)

/- The sub-value a child is handed, as a total function (the property read
raises on null; this total version answers undefined there and is related to
subValue by subValue_rawSub below). -/
def rawSub (v : JsValue) (nm : String) : JsValue :=
  match v with
  | .obj fields => (ownField fields nm).getD JsValue.undef
  | _ => JsValue.undef

mutual

def goodTree : Schema → Bool
| Schema.leaf _ _ ty st => ((ty = "String") || (ty = "Number")) && defaultOkB ty st
| Schema.branch _ _ cs => nodupStr (cs.map Schema.name) && goodForest cs

def goodForest : List Schema → Bool
| [] => true
| c :: rest => goodTree c && goodForest rest

end

mutual

def goodValue : Schema → JsValue → Bool
| Schema.leaf _ _ ty _, v => isUndef v || leafValB ty v
| Schema.branch _ _ cs, v =>
  match v with
  | .arr _ => false
  | _ => goodValueList cs v

def goodValueList : List Schema → JsValue → Bool
| [], _ => true
| c :: rest, v => goodValue c (rawSub v (Schema.name c)) && goodValueList rest v

end

/-
Concrete schemas and inputs used by the claim theorems below. They are built
through Schema.build, exercising the construction path of the source.
-/

/- The schema of spec section 8: a required title field. -/
def titleSchema : Schema :=
  Schema.build (Definition.nested
    [("title", Definition.leaf "String" { required := some (JsValue.bool true) })])

/- A branch with one nested branch child, and an input whose only offence is
a nested unknown key (the top level is clean). -/
def addressSchema : Schema :=
  Schema.build (Definition.nested
    [("address", Definition.nested [("line1", Definition.leaf "String" {})])])

def addressBadInput : JsValue :=
  JsValue.obj [("address", JsValue.obj [("line2", JsValue.str "y")])]

/- The concrete scenario of spec section 8: a schema with only name at the
root, fed a nested unknown property. -/
def nameOnlySchema : Schema :=
  Schema.build (Definition.nested [("name", Definition.leaf "String" {})])

def nameOnlyBadInput : JsValue :=
  JsValue.obj [("address", JsValue.obj [("line1", JsValue.str "x")])]

/- A branch with a Number field, and an input that fails Number coercion. -/
def ageNumberSchema : Schema :=
  Schema.build (Definition.nested [("age", Definition.leaf "Number" {})])

/- The contradictory definition of spec section 8: required plus default. -/
def requiredDefaultDefinition : Definition :=
  Definition.leaf "String"
    { required := some (JsValue.bool true), default := some (JsValue.str "x") }

/- A Number leaf whose default is the falsy literal 0. -/
def zeroDefaultSchema : Schema :=
  Schema.build (Definition.leaf "Number" { default := some (JsValue.num 0) })

/- A String leaf whose default is a function producing a string. -/
def helloDefaultSchema : Schema :=
  Schema.build (Definition.leaf "String" { default := some (JsValue.func (JsValue.str "hello")) })

/- Two optional String fields, for the branch-assembly witness. -/
def twoFieldSchema : Schema :=
  Schema.build (Definition.nested
    [("a", Definition.leaf "String" {}), ("b", Definition.leaf "String" {})])

/- A String-leaf tree and an input that coerces through an own toString
method, so that the first parse succeeds but its output no longer parses. -/
def roundTripSchema : Schema :=
  Schema.build (Definition.nested [("name", Definition.leaf "String" {})])

def roundTripInput : JsValue :=
  JsValue.obj [("name", JsValue.obj [("toString", JsValue.func (JsValue.num 42))])]

/- A good tree with a String and a Number field, for the round-trip
witness. -/
def userAgeSchema : Schema :=
  Schema.build (Definition.nested
    [("user", Definition.leaf "String" {}), ("age", Definition.leaf "Number" {})])

/- Unfolding of one branch-walk step through the named per-child step. -/
theorem parseFields_cons (c : Schema) (rest : List Schema) (v : JsValue)
  (acc : List (String × JsValue)) (errs : List JsErr) :
  Schema.parseFields (c :: rest) v acc errs =
    match Schema.childParse v c with
    | Except.ok val =>
      Schema.parseFields rest v
        (if isUndef val then acc else objAssignField acc (Schema.name c) val) errs
    | Except.error err => Schema.parseFields rest v acc (errs ++ flattenErr err) := rfl

/- Object.assign on a fresh key appends. -/
theorem objAssignField_append (acc : List (String × JsValue)) (k : String) (v : JsValue)
  (h : ∀ e ∈ acc, e.1 ≠ k) :
  objAssignField acc k v = acc ++ [(k, v)] := by
  induction acc with
  | nil => rfl
  | cons e rest ih =>
    have he : e.1 ≠ k := h e (by simp)
    simp [objAssignField, he]
    exact ih (fun x hx => h x (by simp [hx]))

/- Keys of the successful-field list come from the child names. -/
theorem successFields_keys (cs : List Schema) (v : JsValue) :
  ∀ e ∈ successFields cs v, e.1 ∈ cs.map Schema.name := by
  intro e he
  simp only [successFields, List.mem_filterMap] at he
  obtain ⟨c, hc, hmatch⟩ := he
  cases hcp : Schema.childParse v c with
  | ok val =>
    rw [hcp] at hmatch
    by_cases hu : isUndef val = true
    · simp [hu] at hmatch
    · simp [hu] at hmatch
      subst hmatch
      exact List.mem_map_of_mem Schema.name hc
  | error err => rw [hcp] at hmatch; simp at hmatch

/- When every child succeeds and sibling names are unique, the branch walk
appends exactly the successful fields to the accumulator and leaves the
error list untouched. -/
theorem parseFields_all_ok (cs : List Schema) (v : JsValue) :
  ∀ (acc : List (String × JsValue)) (errs : List JsErr),
  (∀ c ∈ cs, ∃ val, Schema.childParse v c = Except.ok val) →
  nodupStr (cs.map Schema.name) = true →
  (∀ c ∈ cs, ∀ e ∈ acc, e.1 ≠ Schema.name c) →
  Schema.parseFields cs v acc errs = (acc ++ successFields cs v, errs) := by
  induction cs with
  | nil => intro acc errs _ _ _; simp [Schema.parseFields, successFields]
  | cons c rest ih =>
    intro acc errs hall hnd hdisj
    obtain ⟨val, hval⟩ := hall c (by simp)
    simp [nodupStr] at hnd
    have hfresh : ∀ x ∈ rest, ¬ Schema.name x = Schema.name c := hnd.1
    have hndrest : nodupStr (rest.map Schema.name) = true := hnd.2
    have hallrest : ∀ d ∈ rest, ∃ w, Schema.childParse v d = Except.ok w :=
      fun d hd => hall d (by simp [hd])
    rw [parseFields_cons]
    rw [hval]
    dsimp only
    by_cases hu : isUndef val = true
    · simp only [hu, if_true]
      rw [ih acc errs hallrest hndrest (fun d hd e he => hdisj d (by simp [hd]) e he)]
      have hsf : successFields (c :: rest) v = successFields rest v := by
        simp [successFields, hval, hu]
      rw [hsf]
    · have hu2 : isUndef val = false := by simpa using hu
      rw [hu2, if_neg (by simp)]
      have hass : objAssignField acc (Schema.name c) val = acc ++ [(Schema.name c, val)] :=
        objAssignField_append acc (Schema.name c) val
          (fun e he => hdisj c (by simp) e he)
      rw [hass]
      have hdisj2 : ∀ d ∈ rest, ∀ e ∈ acc ++ [(Schema.name c, val)], e.1 ≠ Schema.name d := by
        intro d hd e he
        rcases List.mem_append.mp he with h1 | h2
        · exact hdisj d (by simp [hd]) e h1
        · simp at h2
          subst h2
          intro heq
          exact hfresh d hd heq.symm
      rw [ih (acc ++ [(Schema.name c, val)]) errs hallrest hndrest hdisj2]
      have hsf : successFields (c :: rest) v = (Schema.name c, val) :: successFields rest v := by
        simp [successFields, hval, hu]
      rw [hsf]
      simp

/-- Claim C1, counterexample: the input has the flattened key address.line2
outside the paths of the schema, yet parse does not raise the Invalid object
schema composite — the offence sits below a declared top-level key, so the
nested branch reports it (under its relative name line2) and the root wraps
it in a Data is not valid composite instead. -/
theorem c1_counterexample :
  ("address.line2" ∈ obj2dot addressBadInput ∧
    ("address.line2" ∈ Schema.paths addressSchema → False)) ∧
  Schema.parse addressSchema addressBadInput =
    Except.error (JsErr.validation "Data is not valid" none none
      [JsErr.plain "Unknown property line2"]) := by
  refine ⟨⟨?_, ?_⟩, rfl⟩
  · show "address.line2" ∈ ["address.line2"]
    simp
  · intro h
    rw [show Schema.paths addressSchema = ["address.line1"] from rfl] at h
    simp at h

/-- Claim C1 (amended): a branch parse raises the Invalid object schema
composite exactly when the truthy input has a top-level key outside ownPaths
(not when an arbitrary flattened key falls outside paths); the composite then
carries, in depth-first flattening order, one plain Unknown property error
per flattened key of the input that fails hasField, and no transformer is
consulted. -/
theorem c1_amended (n fp : String) (cs : List Schema) (v : JsValue)
  (hv : isFalsy v = false)
  (hk : propertiesRestricted v (Schema.ownPaths (Schema.branch n fp cs)) = false) :
  Schema.parse (Schema.branch n fp cs) v =
    Except.error (JsErr.validation "Invalid object schema" (some v) none
      (((obj2dot v).filter (fun f => !(Schema.hasField (Schema.branch n fp cs) f))).map
        (fun f => JsErr.plain ("Unknown property " ++ f)))) := by
  simp [Schema.parse, Schema.structureValidation, hv, hk]

/-- Claim C1, witness: the nameOnly scenario of spec section 8 instantiates
the amended statement — an unknown top-level key produces the Invalid object
schema composite with the single flattened error address.line1. -/
theorem c1_amended_witness :
  Schema.parse nameOnlySchema nameOnlyBadInput =
    Except.error (JsErr.validation "Invalid object schema" (some nameOnlyBadInput) none
      [JsErr.plain "Unknown property address.line1"]) :=
  c1_amended "" "" (Schema.childrenOf nameOnlySchema) nameOnlyBadInput rfl rfl

/-- Claim C2, counterexample: a Data is not valid composite that does contain
a structural Unknown property error — the nested branch raised its structural
composite, and the parent spliced those child errors into its own data-level
composite. -/
theorem c2_counterexample :
  Schema.parse addressSchema (JsValue.obj [("address", JsValue.obj [("line2", JsValue.str "n")])]) =
    Except.error (JsErr.validation "Data is not valid" none none
      [JsErr.plain "Unknown property line2"]) := rfl

/-- Claim C2 (amended): at a single branch level the separation holds — a
branch that raises the Data is not valid composite necessarily passed its own
structure check (its own structural offences would have short-circuited as
Invalid object schema before any field error was collected); however,
structural errors of nested child branches are spliced into the parent Data
is not valid composite, so the two kinds do mix across nesting levels. -/
theorem c2_amended (n fp : String) (cs : List Schema) (v : JsValue)
  (val : Option JsValue) (fpe : Option String) (errs : List JsErr)
  (h : Schema.parse (Schema.branch n fp cs) v =
    Except.error (JsErr.validation "Data is not valid" val fpe errs)) :
  Schema.structureValidation (Schema.branch n fp cs) v = Except.ok () := by
  by_cases hv : isFalsy v = true
  · simp [Schema.structureValidation, hv]
  · by_cases hk : propertiesRestricted v (Schema.ownPaths (Schema.branch n fp cs)) = true
    · simp [Schema.structureValidation, hv, hk]
    · exfalso
      rw [show Schema.parse (Schema.branch n fp cs) v =
          Except.error (JsErr.validation "Invalid object schema" (some v) none
            (((obj2dot v).filter (fun f => !(Schema.hasField (Schema.branch n fp cs) f))).map
              (fun f => JsErr.plain ("Unknown property " ++ f)))) from by
        simp [Schema.parse, Schema.structureValidation, hv, hk]] at h
      simp at h

/-- Claim C2, witness: a plain missing-required failure instantiates the
amended statement — titleSchema on the empty object raises Data is not valid,
so its own structure check must have passed. -/
theorem c2_amended_witness :
  Schema.structureValidation titleSchema (JsValue.obj []) = Except.ok () :=
  c2_amended "" "" (Schema.childrenOf titleSchema) (JsValue.obj [])
    none none
    [JsErr.validation "Field title is required" (some JsValue.undef) (some "title") []]
    rfl

/-- Claim C3 (code_bug): the required-missing error message of the source is
Field title is required, with the field tag, inside the Data is not valid
composite — while the claim (and the documentation of the repository,
docs/guide.md) demand Property title is required. -/
theorem c3_required_message :
  Schema.parse titleSchema (JsValue.obj []) =
    Except.error (JsErr.validation "Data is not valid" none none
      [JsErr.validation "Field title is required" (some JsValue.undef) (some "title") []]) ∧
  "Field title is required" ≠ "Property title is required" := by
  exact ⟨rfl, by decide⟩

/-- Claim C4, counterexample: a falsy literal default (0) is never applied —
the guard of the source requires the default setting itself to be truthy, so
parsing undefined yields undefined, not the substituted 0 the claim
promises. -/
theorem c4_counterexample :
  Schema.parse zeroDefaultSchema JsValue.undef = Except.ok JsValue.undef ∧
  Schema.parse zeroDefaultSchema JsValue.undef ≠ Except.ok (JsValue.num 0) := by
  refine ⟨rfl, fun h => ?_⟩
  rw [show Schema.parse zeroDefaultSchema JsValue.undef = Except.ok JsValue.undef from rfl] at h
  simp at h

/-- Claim C4 (amended): when the default setting is itself truthy and the
input value is falsy, the default is substituted before the pipeline run that
performs the required check — a function default is invoked to produce the
value, any other truthy default is used as a literal; falsy defaults such as
false, 0 or the empty string are never applied. -/
theorem c4_amended (n fp ty : String) (st : Settings) (v : JsValue)
  (hd : settingTruthy st.default = true) (hv : isFalsy v = true) :
  Schema.parse (Schema.leaf n fp ty st) v =
    Schema.run (Schema.leaf n fp ty st) ty (invokeDefault (st.default.getD JsValue.undef)) := by
  cases hdef : st.default with
  | none => rw [hdef] at hd; simp [settingTruthy] at hd
  | some d =>
    rw [hdef] at hd
    simp only [settingTruthy] at hd
    simp [Schema.parse, defaultedValue, hdef, hd, hv]

/-- Claim C4, witness: a function default producing the string hello is
invoked on a falsy input and handed to the pipeline run. -/
theorem c4_amended_witness :
  Schema.parse helloDefaultSchema JsValue.undef =
    Schema.run helloDefaultSchema "String" (JsValue.str "hello") :=
  c4_amended "" "" "String"
    { default := some (JsValue.func (JsValue.str "hello")) } JsValue.undef rfl rfl

/-- Claim C6 (code_bug): the constructor performs no required-plus-default
validation — building the contradictory definition succeeds (build is total)
and parse is reachable on the built schema, the truthy default masking the
required check; the documentation of the repository (docs/guide.md) demands a
construction-time error instead. -/
theorem c6_construction_not_rejected :
  Schema.build requiredDefaultDefinition =
    Schema.leaf "" "" "String"
      { required := some (JsValue.bool true), default := some (JsValue.str "x") } ∧
  Schema.parse (Schema.build requiredDefaultDefinition) JsValue.undef =
    Except.ok (JsValue.str "x") := ⟨rfl, rfl⟩

/-- Claim C7, counterexample: a tree of one String leaf (no autoCast setting
exists in this source) and an input that parses successfully through an own
toString method returning the number 42; re-parsing the sanitized output
fails, so parse of parse is not stable. -/
theorem c7_counterexample :
  Schema.parse roundTripSchema roundTripInput =
    Except.ok (JsValue.obj [("name", JsValue.num 42)]) ∧
  Schema.parse roundTripSchema (JsValue.obj [("name", JsValue.num 42)]) =
    Except.error (JsErr.validation "Data is not valid" none none
      [JsErr.validation "Invalid string" (some (JsValue.num 42)) (some "name") []]) :=
  ⟨rfl, rfl⟩

/-- Claim C8 (code_bug): the Number transformer rejects with a plain Error
carrying no field reference at all — the Data is not valid composite wraps a
fieldless Invalid number child, while the claim (and the tests of the
repository, which read error.errors[0].field.fullPath) require every surfaced
error to carry its originating field. -/
theorem c8_fieldless_transformer_error :
  Schema.parse ageNumberSchema (JsValue.obj [("age", JsValue.obj [])]) =
    Except.error (JsErr.validation "Data is not valid" none none
      [JsErr.plain "Invalid number"]) := rfl

/-- Claim C10 (confirmed): every falsy input — undefined, null, false, 0, NaN
or the empty string — passes structureValidation trivially, so no Unknown
property error can arise from it and the branch parse proceeds directly to
the per-field walk. -/
theorem c10_falsy_trivially_valid (n fp : String) (cs : List Schema) (v : JsValue)
  (hv : isFalsy v = true) :
  Schema.structureValidation (Schema.branch n fp cs) v = Except.ok () ∧
  Schema.parse (Schema.branch n fp cs) v = Schema.branchAssemble cs v := by
  constructor
  · simp [Schema.structureValidation, hv]
  · simp [Schema.parse, Schema.structureValidation, hv, Schema.branchAssemble]

/-- Claim C10, witness: the falsy number 0 against the titleSchema branch. -/
theorem c10_witness :
  Schema.structureValidation (Schema.branch "" "" (Schema.childrenOf titleSchema)) (JsValue.num 0) = Except.ok () ∧
  Schema.parse (Schema.branch "" "" (Schema.childrenOf titleSchema)) (JsValue.num 0) =
    Schema.branchAssemble (Schema.childrenOf titleSchema) (JsValue.num 0) :=
  c10_falsy_trivially_valid "" "" (Schema.childrenOf titleSchema) (JsValue.num 0) rfl

/-- Claim C5 (confirmed): when the structure check passes, sibling names are
unique, and every child parses successfully, the branch result contains
exactly the own-path keys whose child result is not undefined, in declaration
order — an optional absent field contributes no key — and when no child
produced a value the branch result is undefined. -/
theorem c5_branch_result (n fp : String) (cs : List Schema) (v : JsValue)
  (hs : Schema.structureValidation (Schema.branch n fp cs) v = Except.ok ())
  (hnd : nodupStr (cs.map Schema.name) = true)
  (hall : ∀ c ∈ cs, ∃ val, Schema.childParse v c = Except.ok val) :
  Schema.parse (Schema.branch n fp cs) v =
    (if (successFields cs v).isEmpty then Except.ok JsValue.undef
     else Except.ok (JsValue.obj (successFields cs v))) := by
  have hpf := parseFields_all_ok cs v [] [] hall hnd (by intro c hc e he; cases he)
  simp [Schema.parse, hs, hpf]
  rw [hpf]
  simp

/-- Claim C5, witness: two optional String fields with only b supplied — the
result keeps exactly the b key; the absent a contributes nothing. -/
theorem c5_witness :
  Schema.parse twoFieldSchema (JsValue.obj [("b", JsValue.str "x")]) =
    (if (successFields (Schema.childrenOf twoFieldSchema) (JsValue.obj [("b", JsValue.str "x")])).isEmpty
     then Except.ok JsValue.undef
     else Except.ok (JsValue.obj (successFields (Schema.childrenOf twoFieldSchema) (JsValue.obj [("b", JsValue.str "x")])))) :=
  c5_branch_result "" "" (Schema.childrenOf twoFieldSchema) (JsValue.obj [("b", JsValue.str "x")]) rfl rfl
    (by
      intro c hc
      rw [show Schema.childrenOf twoFieldSchema =
        [Schema.leaf "a" "a" "String" {}, Schema.leaf "b" "b" "String" {}] from rfl] at hc
      simp at hc
      rcases hc with rfl | rfl
      · exact ⟨JsValue.undef, rfl⟩
      · exact ⟨JsValue.str "x", rfl⟩)

mutual

theorem goodValue_undef : ∀ c : Schema, goodValue c JsValue.undef = true
| Schema.leaf n fp ty st => by simp [goodValue, isUndef]
| Schema.branch n fp cs => goodValueList_undef cs

theorem goodValueList_undef : ∀ cs : List Schema, goodValueList cs JsValue.undef = true
| [] => rfl
| c :: rest => by
  simp only [goodValueList, rawSub, Bool.and_eq_true]
  exact ⟨goodValue_undef c, goodValueList_undef rest⟩

end

theorem goodForest_mem (cs : List Schema) (c : Schema)
  (h : goodForest cs = true) (hc : c ∈ cs) : goodTree c = true := by
  induction cs with
  | nil => cases hc
  | cons d rest ih =>
    simp only [goodForest, Bool.and_eq_true] at h
    rcases List.mem_cons.mp hc with rfl | hmem
    · exact h.1
    · exact ih h.2 hmem

theorem goodValueList_mem (cs : List Schema) (v : JsValue) (c : Schema)
  (h : goodValueList cs v = true) (hc : c ∈ cs) :
  goodValue c (rawSub v (Schema.name c)) = true := by
  induction cs with
  | nil => cases hc
  | cons d rest ih =>
    simp only [goodValueList, Bool.and_eq_true] at h
    rcases List.mem_cons.mp hc with rfl | hmem
    · exact h.1
    · exact ih h.2 hmem

/- The default substitution is idempotent: a second pass never changes the
value again (the substituted value either stays truthy or is resubstituted
to itself). -/
theorem defaultedValue_idem (st : Settings) (v : JsValue) :
  defaultedValue st (defaultedValue st v) = defaultedValue st v := by
  unfold defaultedValue
  cases st.default with
  | none => rfl
  | some d =>
    by_cases hd : isTruthy d = true
    · by_cases hv : isFalsy v = true
      · simp [hd, hv]
      · simp [hd, hv]
    · simp [hd]

/- Typedness is preserved by the default substitution when defaults are
well typed. -/
theorem goodValue_defaulted (ty : String) (st : Settings) (v : JsValue)
  (hdok : defaultOkB ty st = true) (hv : (isUndef v || leafValB ty v) = true) :
  (isUndef (defaultedValue st v) || leafValB ty (defaultedValue st v)) = true := by
  unfold defaultedValue
  cases hdef : st.default with
  | none => exact hv
  | some d =>
    by_cases hcond : (isTruthy d && isFalsy v) = true
    · simp only [hcond, if_true]
      unfold defaultOkB at hdok
      rw [hdef] at hdok
      have htr : isTruthy d = true := by
        have h2 := hcond
        simp only [Bool.and_eq_true] at h2
        exact h2.1
      simp [htr] at hdok
      simp [hdok]
    · simp only [hcond, if_false]
      exact hv

/- A successful String transformer run returns exactly the coerced value. -/
theorem stringParse_ok (sc : Schema) (v w : JsValue)
  (h : stringParse sc v = Except.ok w) : stringCoerce sc v = Except.ok w := by
  unfold stringParse at h
  cases hc : stringCoerce sc v with
  | error e => rw [hc] at h; cases h
  | ok v1 =>
    rw [hc] at h
    dsimp only at h
    cases h1 : checkMinlength sc v1 with
    | error e => rw [h1] at h; cases h
    | ok u1 =>
      rw [h1] at h
      dsimp only at h
      cases h2 : checkMaxlength sc v1 with
      | error e => rw [h2] at h; cases h
      | ok u2 =>
        rw [h2] at h
        dsimp only at h
        cases h3 : checkRegex sc v1 with
        | error e => rw [h3] at h; cases h
        | ok u3 =>
          rw [h3] at h
          dsimp only at h
          cases h
          rfl

/- A successful pipeline run on a typed-or-absent value returns the value
itself, for the String and the Number type. -/
theorem run_typed_fix (n fp ty : String) (st : Settings) (v1 w : JsValue)
  (hty : ty = "String" ∨ ty = "Number")
  (hv1 : (isUndef v1 || leafValB ty v1) = true)
  (hr : Schema.run (Schema.leaf n fp ty st) ty v1 = Except.ok w) :
  w = v1 := by
  rcases hty with h | h <;> subst h
  · -- String
    rw [show Schema.run (Schema.leaf n fp "String" st) "String" v1 =
        (if isUndef v1 && !(settingTruthy (Schema.settingsOf (Schema.leaf n fp "String" st)).required) then
          Except.ok JsValue.undef
        else
          match requiredCheck (Schema.leaf n fp "String" st) v1 with
          | Except.error e => Except.error e
          | Except.ok _ => stringParse (Schema.leaf n fp "String" st) v1) from rfl] at hr
    by_cases hcond : (isUndef v1 && !(settingTruthy (Schema.settingsOf (Schema.leaf n fp "String" st)).required)) = true
    · rw [if_pos hcond] at hr
      cases hr
      have h2 := hcond
      simp only [Bool.and_eq_true] at h2
      have h3 : isUndef v1 = true := h2.1
      cases v1 <;> simp [isUndef] at h3
      rfl
    · rw [if_neg (by simp at hcond ⊢; exact hcond)] at hr
      cases hrc : requiredCheck (Schema.leaf n fp "String" st) v1 with
      | error e => rw [hrc] at hr; cases hr
      | ok u =>
        rw [hrc] at hr
        have hco := stringParse_ok _ _ _ hr
        -- v1 is undefined or a string; stringCoerce errors on undefined
        cases v1 with
        | str s => rw [show stringCoerce (Schema.leaf n fp "String" st) (JsValue.str s) =
            Except.ok (JsValue.str s) from rfl] at hco; cases hco; rfl
        | undef => rw [show stringCoerce (Schema.leaf n fp "String" st) JsValue.undef =
            Except.error (Schema.throwError (Schema.leaf n fp "String" st)
              (.str "Invalid string") (some JsValue.undef) []) from rfl] at hco; cases hco
        | null => simp [leafValB, isUndef] at hv1
        | bool b => simp [leafValB, isUndef] at hv1
        | num m => simp [leafValB, isUndef] at hv1
        | nan => simp [leafValB, isUndef] at hv1
        | func r => simp [leafValB, isUndef] at hv1
        | date t => simp [leafValB, isUndef] at hv1
        | arr es => simp [leafValB, isUndef] at hv1
        | obj fs => simp [leafValB, isUndef] at hv1
  · -- Number
    rw [show Schema.run (Schema.leaf n fp "Number" st) "Number" v1 =
        (if isUndef v1 && !(settingTruthy (Schema.settingsOf (Schema.leaf n fp "Number" st)).required) then
          Except.ok JsValue.undef
        else
          match requiredCheck (Schema.leaf n fp "Number" st) v1 with
          | Except.error e => Except.error e
          | Except.ok _ => numberParse (Schema.leaf n fp "Number" st) v1) from rfl] at hr
    by_cases hcond : (isUndef v1 && !(settingTruthy (Schema.settingsOf (Schema.leaf n fp "Number" st)).required)) = true
    · rw [if_pos hcond] at hr
      cases hr
      have h2 := hcond
      simp only [Bool.and_eq_true] at h2
      have h3 : isUndef v1 = true := h2.1
      cases v1 <;> simp [isUndef] at h3
      rfl
    · rw [if_neg (by simp at hcond ⊢; exact hcond)] at hr
      cases hrc : requiredCheck (Schema.leaf n fp "Number" st) v1 with
      | error e => rw [hrc] at hr; cases hr
      | ok u =>
        rw [hrc] at hr
        cases v1 with
        | num m => rw [show numberParse (Schema.leaf n fp "Number" st) (JsValue.num m) =
            Except.ok (JsValue.num m) from rfl] at hr; cases hr; rfl
        | undef => rw [show numberParse (Schema.leaf n fp "Number" st) JsValue.undef =
            Except.error (JsErr.plain "Invalid number") from rfl] at hr; cases hr
        | null => simp [leafValB, isUndef] at hv1
        | bool b => simp [leafValB, isUndef] at hv1
        | str s => simp [leafValB, isUndef] at hv1
        | nan => simp [leafValB, isUndef] at hv1
        | func r => simp [leafValB, isUndef] at hv1
        | date t => simp [leafValB, isUndef] at hv1
        | arr es => simp [leafValB, isUndef] at hv1
        | obj fs => simp [leafValB, isUndef] at hv1

/- Stability of a leaf parse on good values: the sanitized output of a
successful parse parses again to itself. -/
theorem parse_leaf_stable (n fp ty : String) (st : Settings) (v w : JsValue)
  (ht : goodTree (Schema.leaf n fp ty st) = true)
  (hv : goodValue (Schema.leaf n fp ty st) v = true)
  (hp : Schema.parse (Schema.leaf n fp ty st) v = Except.ok w) :
  Schema.parse (Schema.leaf n fp ty st) w = Except.ok w := by
  have hparse : ∀ u : JsValue, Schema.parse (Schema.leaf n fp ty st) u =
      Schema.run (Schema.leaf n fp ty st) ty (defaultedValue st u) := fun u => rfl
  unfold goodTree at ht
  simp only [Bool.and_eq_true] at ht
  have hty : ty = "String" ∨ ty = "Number" := by
    have h1 := ht.1
    simp at h1
    exact h1
  have hdok : defaultOkB ty st = true := ht.2
  have hvv : (isUndef v || leafValB ty v) = true := hv
  have hv1 : (isUndef (defaultedValue st v) || leafValB ty (defaultedValue st v)) = true :=
    goodValue_defaulted ty st v hdok hvv
  rw [hparse v] at hp
  have hw : w = defaultedValue st v :=
    run_typed_fix n fp ty st (defaultedValue st v) w hty hv1 hp
  subst hw
  rw [hparse, defaultedValue_idem]
  exact hp

/- Flattening a caught error never produces an empty splice. -/
theorem flattenErr_ne_nil (e : JsErr) : flattenErr e ≠ [] := by
  cases e with
  | validation m v f errs =>
    unfold flattenErr
    by_cases h : errs.isEmpty = true
    · simp [h]
    · simp [h]
      exact fun hc => h (by simp [hc])
  | plain m => simp [flattenErr]
  | typeError m => simp [flattenErr]

/- The branch walk only ever appends to the error list. -/
theorem parseFields_errs_prefix (cs : List Schema) (v : JsValue) :
  ∀ (acc : List (String × JsValue)) (errs : List JsErr),
  ∃ t, (Schema.parseFields cs v acc errs).2 = errs ++ t := by
  induction cs with
  | nil => intro acc errs; exact ⟨[], by simp [Schema.parseFields]⟩
  | cons c rest ih =>
    intro acc errs
    rw [parseFields_cons]
    cases hcp : Schema.childParse v c with
    | ok val =>
      dsimp only
      exact ih _ errs
    | error err =>
      dsimp only
      obtain ⟨t2, ht2⟩ := ih acc (errs ++ flattenErr err)
      exact ⟨flattenErr err ++ t2, by rw [ht2]; simp⟩

/- If the walk ends with no new errors, every child parsed successfully. -/
theorem parseFields_no_errs (cs : List Schema) (v : JsValue) :
  ∀ (acc : List (String × JsValue)) (errs : List JsErr),
  (Schema.parseFields cs v acc errs).2 = errs →
  ∀ c ∈ cs, ∃ val, Schema.childParse v c = Except.ok val := by
  induction cs with
  | nil => intro acc errs _ c hc; cases hc
  | cons c rest ih =>
    intro acc errs hsnd d hd
    rw [parseFields_cons] at hsnd
    cases hcp : Schema.childParse v c with
    | ok val =>
      rw [hcp] at hsnd
      dsimp only at hsnd
      rcases List.mem_cons.mp hd with rfl | hmem
      · exact ⟨val, hcp⟩
      · exact ih _ errs hsnd d hmem
    | error err =>
      rw [hcp] at hsnd
      dsimp only at hsnd
      exfalso
      obtain ⟨t, ht⟩ := parseFields_errs_prefix rest v acc (errs ++ flattenErr err)
      rw [ht] at hsnd
      have hlen := congrArg List.length hsnd
      simp [List.length_append] at hlen
      exact flattenErr_ne_nil err hlen.1

/- A value observed undefined is the undefined value. -/
theorem isUndef_eq (v : JsValue) (h : isUndef v = true) : v = JsValue.undef := by
  cases v <;> simp [isUndef] at h
  rfl

/- The fallible property read agrees with the total one except on null and
array inputs. -/
theorem subValue_rawSub (v : JsValue) (nm : String) :
  v = JsValue.null ∨ (∃ es, v = JsValue.arr es) ∨
  subValue v nm = Except.ok (rawSub v nm) := by
  cases v with
  | null => exact Or.inl rfl
  | arr es => exact Or.inr (Or.inl ⟨es, rfl⟩)
  | undef => exact Or.inr (Or.inr rfl)
  | bool b => exact Or.inr (Or.inr rfl)
  | num m => exact Or.inr (Or.inr rfl)
  | nan => exact Or.inr (Or.inr rfl)
  | str s => exact Or.inr (Or.inr rfl)
  | func r => exact Or.inr (Or.inr rfl)
  | date t => exact Or.inr (Or.inr rfl)
  | obj fs => exact Or.inr (Or.inr rfl)

/- Own-field lookup misses when the key is absent. -/
theorem ownField_none (l : List (String × JsValue)) (k : String)
  (h : ∀ e ∈ l, e.1 ≠ k) : ownField l k = none := by
  induction l with
  | nil => rfl
  | cons e rest ih =>
    have hne : e.1 ≠ k := h e (by simp)
    cases e with
    | mk k0 v0 =>
      simp [ownField, hne]
      exact ih (fun x hx => h x (by simp [hx]))

/- Unfolding of one successful-field step. -/
theorem successFields_cons (c : Schema) (rest : List Schema) (v : JsValue) :
  successFields (c :: rest) v =
    ((match Schema.childParse v c with
      | Except.ok val => if isUndef val then none else some (Schema.name c, val)
      | Except.error _ => none).toList ++ successFields rest v) := by
  simp only [successFields, List.filterMap_cons]
  cases Schema.childParse v c with
  | ok w =>
    dsimp only
    by_cases hu : isUndef w = true <;> simp [hu]
  | error e => simp

/- Looking a child name up in the successful-field list recovers exactly that
child result (unique sibling names ensure no shadowing). -/
theorem ownField_successFields (cs : List Schema) (v : JsValue) (c : Schema) (val : JsValue)
  (hnd : nodupStr (cs.map Schema.name) = true) (hc : c ∈ cs)
  (hcp : Schema.childParse v c = Except.ok val) :
  ownField (successFields cs v) (Schema.name c) =
    (if isUndef val then none else some val) := by
  induction cs with
  | nil => cases hc
  | cons d rest ih =>
    simp [nodupStr] at hnd
    have hfresh : ∀ x ∈ rest, ¬ Schema.name x = Schema.name d := hnd.1
    have hkeysub := successFields_keys rest v
    rw [successFields_cons]
    rcases List.mem_cons.mp hc with rfl | hmem
    · rw [hcp]
      dsimp only
      have hnone : ∀ e ∈ successFields rest v, e.1 ≠ Schema.name c := by
        intro e he heq
        have hmem2 := hkeysub e he
        simp only [List.mem_map] at hmem2
        obtain ⟨x, hx, hxe⟩ := hmem2
        exact hfresh x hx (by rw [hxe, heq])
      by_cases hu : isUndef val = true
      · rw [if_pos hu, if_pos hu]
        show ownField (successFields rest v) (Schema.name c) = none
        exact ownField_none (successFields rest v) (Schema.name c) hnone
      · rw [if_neg hu, if_neg hu]
        show (if Schema.name c = Schema.name c then some val
          else ownField (successFields rest v) (Schema.name c)) = some val
        rw [if_pos rfl]
    · have hdne2 : ¬ (Schema.name d = Schema.name c) :=
        fun heq => hfresh c hmem heq.symm
      cases hdp : Schema.childParse v d with
      | ok w =>
        dsimp only
        by_cases hu : isUndef w = true
        · rw [if_pos hu]
          show ownField (successFields rest v) (Schema.name c) = _
          exact ih hnd.2 hmem
        · rw [if_neg hu]
          show (if Schema.name d = Schema.name c then some w
            else ownField (successFields rest v) (Schema.name c)) = _
          rw [if_neg hdne2]
          exact ih hnd.2 hmem
      | error e =>
        dsimp only
        show ownField (successFields rest v) (Schema.name c) = _
        exact ih hnd.2 hmem

/- Children that see identical per-child outcomes contribute identical
successful-field lists. -/
theorem successFields_congr (cs : List Schema) (v1 v2 : JsValue)
  (h : ∀ c ∈ cs, Schema.childParse v1 c = Schema.childParse v2 c) :
  successFields cs v1 = successFields cs v2 := by
  induction cs with
  | nil => rfl
  | cons c rest ih =>
    rw [successFields_cons, successFields_cons]
    rw [h c (by simp)]
    rw [ih (fun d hd => h d (by simp [hd]))]

/- An empty successful-field list means that every child result was
undefined. -/
theorem successFields_nil (cs : List Schema) (v : JsValue)
  (h : successFields cs v = []) :
  ∀ c ∈ cs, ∀ val, Schema.childParse v c = Except.ok val → isUndef val = true := by
  intro c hc val hcp
  by_contra hu
  have hmem : (Schema.name c, val) ∈ successFields cs v := by
    simp only [successFields, List.mem_filterMap]
    exact ⟨c, hc, by rw [hcp]; simp [hu]⟩
  rw [h] at hmem
  cases hmem

/- An object whose keys all lie in the allowed list passes the restriction
check. -/
theorem propertiesRestricted_of_sub (fields : List (String × JsValue)) (allowed : List String)
  (h : ∀ e ∈ fields, e.1 ∈ allowed) :
  propertiesRestricted (JsValue.obj fields) allowed = true := by
  simp only [propertiesRestricted, jsKeys, List.all_eq_true, List.mem_map]
  rintro k ⟨e, he, rfl⟩
  simpa using h e he

/- A good value fed to a branch is no array, and its children see good
sub-values. -/
theorem goodValue_branch_list (n fp : String) (cs : List Schema) (v : JsValue)
  (h : goodValue (Schema.branch n fp cs) v = true) :
  goodValueList cs v = true ∧ ∀ es, v ≠ JsValue.arr es := by
  cases v
  case arr es => exact absurd h (by simp [goodValue])
  all_goals exact ⟨h, fun es hne => JsValue.noConfusion hne⟩

/- Round-trip stability: on a good tree, the sanitized output of a
successful parse of a good value parses again to itself. -/
theorem parse_stable : ∀ (s : Schema) (v w : JsValue),
  goodTree s = true → goodValue s v = true →
  Schema.parse s v = Except.ok w → Schema.parse s w = Except.ok w
| Schema.leaf n fp ty st, v, w, ht, hv, hp => parse_leaf_stable n fp ty st v w ht hv hp
| Schema.branch n fp cs, v, w, ht, hv, hp => by
  have ht2 : nodupStr (cs.map Schema.name) = true ∧ goodForest cs = true := by
    have h0 := ht
    simp only [goodTree, Bool.and_eq_true] at h0
    exact h0
  have hnd := ht2.1
  have hforest := ht2.2
  obtain ⟨hvl, hnarr⟩ := goodValue_branch_list n fp cs v hv
  have hparse_eq : ∀ u, Schema.parse (Schema.branch n fp cs) u =
    (match Schema.structureValidation (Schema.branch n fp cs) u with
     | Except.error e => Except.error e
     | Except.ok _ =>
       match Schema.parseFields cs u [] [] with
       | (ro, errs) =>
         if errs.isEmpty then
           if ro.isEmpty then Except.ok JsValue.undef else Except.ok (JsValue.obj ro)
         else Except.error (JsErr.validation "Data is not valid" none none errs)) :=
    fun u => rfl
  rw [hparse_eq] at hp
  cases hs : Schema.structureValidation (Schema.branch n fp cs) v with
  | error e => rw [hs] at hp; cases hp
  | ok u0 =>
    rw [hs] at hp
    dsimp only at hp
    obtain ⟨ro, errs, hpf⟩ : ∃ ro errs, Schema.parseFields cs v [] [] = (ro, errs) :=
      ⟨_, _, rfl⟩
    rw [hpf] at hp
    dsimp only at hp
    by_cases herr : errs.isEmpty = true
    swap
    · rw [if_neg herr] at hp; cases hp
    rw [if_pos herr] at hp
    have herrnil : errs = [] := by
      cases errs with
      | nil => rfl
      | cons a b => simp [List.isEmpty] at herr
    have hall : ∀ c ∈ cs, ∃ val, Schema.childParse v c = Except.ok val := by
      apply parseFields_no_errs cs v [] []
      rw [hpf, herrnil]
    have hro : ro = successFields cs v := by
      have hx := parseFields_all_ok cs v [] [] hall hnd (fun c hc e he => by cases he)
      rw [hpf] at hx
      have := congrArg Prod.fst hx
      simpa using this
    have hchild : ∀ c ∈ cs, ∃ val, Schema.childParse v c = Except.ok val ∧
        Schema.parse c (rawSub v (Schema.name c)) = Except.ok val := by
      intro c hc
      obtain ⟨val, hval⟩ := hall c hc
      refine ⟨val, hval, ?_⟩
      rcases subValue_rawSub v (Schema.name c) with hnull | ⟨es, harr⟩ | hsv
      · exfalso
        rw [hnull] at hval
        rw [show Schema.childParse JsValue.null c =
          Except.error (JsErr.typeError "Cannot read properties of null") from rfl] at hval
        cases hval
      · exact absurd harr (hnarr es)
      · unfold Schema.childParse at hval
        rw [hsv] at hval
        exact hval
    have hstab : ∀ c ∈ cs, ∀ val, Schema.childParse v c = Except.ok val →
        Schema.parse c val = Except.ok val := by
      intro c hc val hval
      obtain ⟨val2, hval2, hpc⟩ := hchild c hc
      rw [hval] at hval2
      injection hval2 with hveq
      subst hveq
      exact parse_stable c (rawSub v (Schema.name c)) val
        (goodForest_mem cs c hforest hc) (goodValueList_mem cs v c hvl hc) hpc
    by_cases hroe : ro.isEmpty = true
    · rw [if_pos hroe] at hp
      injection hp with hw
      subst hw
      have hronil : ro = [] := by
        cases ro with
        | nil => rfl
        | cons a b => simp [List.isEmpty] at hroe
      have hsfnil : successFields cs v = [] := by rw [← hro]; exact hronil
      have hallu : ∀ c ∈ cs, Schema.childParse JsValue.undef c = Except.ok JsValue.undef := by
        intro c hc
        obtain ⟨val, hval⟩ := hall c hc
        have hu : isUndef val = true := successFields_nil cs v hsfnil c hc val hval
        have hveq : val = JsValue.undef := isUndef_eq val hu
        subst hveq
        show Schema.parse c JsValue.undef = Except.ok JsValue.undef
        exact hstab c hc JsValue.undef hval
      rw [hparse_eq]
      rw [show Schema.structureValidation (Schema.branch n fp cs) JsValue.undef =
        Except.ok () from rfl]
      dsimp only
      have hpful := parseFields_all_ok cs JsValue.undef [] []
        (fun c hc => ⟨JsValue.undef, hallu c hc⟩) hnd (fun c hc e he => by cases he)
      have hsfu : successFields cs JsValue.undef = [] := by
        refine List.filterMap_eq_nil_iff.mpr ?_
        intro c hc
        rw [hallu c hc]
        simp [isUndef]
      rw [hpful, hsfu]
      dsimp only
      simp
    · rw [if_neg hroe] at hp
      injection hp with hw
      subst hw
      have hre : ∀ c ∈ cs, Schema.childParse (JsValue.obj ro) c = Schema.childParse v c := by
        intro c hc
        obtain ⟨val, hval⟩ := hall c hc
        rw [hval]
        have hof : ownField ro (Schema.name c) = (if isUndef val then none else some val) := by
          rw [hro]; exact ownField_successFields cs v c val hnd hc hval
        show (match subValue (JsValue.obj ro) (Schema.name c) with
              | Except.error e => Except.error e
              | Except.ok sub => Schema.parse c sub) = Except.ok val
        rw [show subValue (JsValue.obj ro) (Schema.name c) =
          Except.ok ((ownField ro (Schema.name c)).getD JsValue.undef) from rfl]
        dsimp only
        rw [hof]
        by_cases hu : isUndef val = true
        · rw [if_pos hu]
          dsimp only [Option.getD]
          have hveq := isUndef_eq val hu
          rw [hveq]
          rw [← hveq]
          have hveq2 := hveq
          subst hveq2
          exact hstab c hc JsValue.undef hval
        · rw [if_neg hu]
          dsimp only [Option.getD]
          exact hstab c hc val hval
      have hpr : propertiesRestricted (JsValue.obj ro)
          (Schema.ownPaths (Schema.branch n fp cs)) = true := by
        apply propertiesRestricted_of_sub
        intro e he
        rw [hro] at he
        have hks := successFields_keys cs v e he
        simpa [Schema.ownPaths, Schema.childrenOf] using hks
      have hsro : Schema.structureValidation (Schema.branch n fp cs) (JsValue.obj ro) =
          Except.ok () := by
        simp [Schema.structureValidation, isFalsy, hpr]
      have hallro : ∀ c ∈ cs, ∃ val, Schema.childParse (JsValue.obj ro) c = Except.ok val := by
        intro c hc
        obtain ⟨val, hval⟩ := hall c hc
        exact ⟨val, by rw [hre c hc]; exact hval⟩
      have hpfro := parseFields_all_ok cs (JsValue.obj ro) [] [] hallro hnd
        (fun c hc e he => by cases he)
      have hsfro : successFields cs (JsValue.obj ro) = ro := by
        rw [successFields_congr cs (JsValue.obj ro) v hre, ← hro]
      rw [hparse_eq, hsro]
      dsimp only
      rw [hpfro, hsfro]
      dsimp only
      simp [hroe]
termination_by s _ _ _ _ _ => sizeOf s
decreasing_by
  simp_wf
  have h1 := List.sizeOf_lt_of_mem hc
  omega

/-- Claim C7 (amended): round-trip stability holds for trees of String and
Number leaves once every leaf position is supplied (and defaulted) with a
value of its own primitive type — then a successful parse output re-parses to
itself. The original claim fails without the typedness condition: an
object-with-toString input at a String leaf parses to a non-string output
that no longer parses (see the counterexample), and a Boolean leaf has no
registered transformer in this source, so no parse involving one ever
succeeds and the claim is vacuous there. -/
theorem c7_amended (s : Schema) (v w : JsValue)
  (ht : goodTree s = true) (hv : goodValue s v = true)
  (hp : Schema.parse s v = Except.ok w) :
  Schema.parse s w = Except.ok w := parse_stable s v w ht hv hp

/-- Claim C7, witness: a String and a Number field with typed inputs — the
sanitized output re-parses to itself. -/
theorem c7_amended_witness :
  Schema.parse userAgeSchema
    (JsValue.obj [("user", JsValue.str "tin"), ("age", JsValue.num 36)]) =
    Except.ok (JsValue.obj [("user", JsValue.str "tin"), ("age", JsValue.num 36)]) :=
  c7_amended userAgeSchema
    (JsValue.obj [("user", JsValue.str "tin"), ("age", JsValue.num 36)])
    (JsValue.obj [("user", JsValue.str "tin"), ("age", JsValue.num 36)])
    rfl rfl rfl
